import Mathlib

/-!
Verification development for the Portfolio repository's sales-analytics
dashboard engine and its comments API.

The analytics engine (Aggregator, AnomalyDetector, ComparisonEngine,
MetricsSummarizer, FilterController) lives in
`Dashboards/Dashboard_on_JavaScript.html`, which is not among the provided
source files; those components are modelled from the specification.
The comments API handler is translated from `api/reactions.js`.

Dates are modelled as proleptic-Gregorian calendar triples with a day
numbering (`dayNumber`) playing the role of the epoch-millisecond ordering
that JavaScript `Date` objects compare by (at day resolution, which is the
resolution of all records here).  Amounts are modelled as rationals:
the engine performs no rounding until display.
-/

/-- Modelled from the spec: a calendar date, as used by `RawSalesRecord.date`
and all bucket boundaries of the dashboard engine (the JS source of the
engine is not among the provided files). -/
structure Date where
  y : Nat
  m : Nat
  d : Nat
deriving DecidableEq, Repr

/-- Gregorian leap-year rule. -/
def isLeap (y : Nat) : Bool :=
  (y % 4 == 0 && !(y % 100 == 0)) || (y % 400 == 0)

/-- Days in a calendar month. -/
def daysInMonth (y m : Nat) : Nat :=
  match m with
  | 1 => 31
  | 2 => if isLeap y then 29 else 28
  | 3 => 31
  | 4 => 30
  | 5 => 31
  | 6 => 30
  | 7 => 31
  | 8 => 31
  | 9 => 30
  | 10 => 31
  | 11 => 30
  | 12 => 31
  | _ => 30

/-- Days in a calendar year. -/
def daysInYear (y : Nat) : Nat := if isLeap y then 366 else 365

/-- A valid proleptic-Gregorian date (year at least 1). -/
def Date.Valid (dt : Date) : Prop :=
  1 ≤ dt.y ∧ 1 ≤ dt.m ∧ dt.m ≤ 12 ∧ 1 ≤ dt.d ∧ dt.d ≤ daysInMonth dt.y dt.m

instance (dt : Date) : Decidable dt.Valid := by
  unfold Date.Valid; infer_instance

/-- Number of leap years in `[1, a]`. -/
def leapCount (a : Nat) : Nat := a / 4 + a / 400 - a / 100

/-- Days strictly before year `y`, counting from 0001-01-01 as day 0. -/
def daysBeforeYear (y : Nat) : Nat := 365 * (y - 1) + leapCount (y - 1)

/-- Days strictly before month `m` within year `y`. -/
def daysBeforeMonth (y m : Nat) : Nat :=
  (match m with
   | 1 => 0
   | 2 => 31
   | 3 => 59
   | 4 => 90
   | 5 => 120
   | 6 => 151
   | 7 => 181
   | 8 => 212
   | 9 => 243
   | 10 => 273
   | 11 => 304
   | 12 => 334
   | _ => 0) + (if 3 ≤ m ∧ isLeap y then 1 else 0)

/-- Day number of a date: 0001-01-01 is day 0.  This models the numeric
ordering JavaScript `Date` comparison uses. -/
def dayNumber (dt : Date) : Nat :=
  daysBeforeYear dt.y + daysBeforeMonth dt.y dt.m + (dt.d - 1)

/-- Next calendar day, with month/year rollover. -/
def dateSucc (dt : Date) : Date :=
  if dt.d < daysInMonth dt.y dt.m then ⟨dt.y, dt.m, dt.d + 1⟩
  else if dt.m < 12 then ⟨dt.y, dt.m + 1, 1⟩
  else ⟨dt.y + 1, 1, 1⟩

/-- Add `n` days to a date. -/
def addDays (dt : Date) : Nat → Date
  | 0 => dt
  | n + 1 => dateSucc (addDays dt n)

lemma leapCount_succ (a : Nat) :
    leapCount (a + 1) = leapCount a + (if isLeap (a + 1) then 1 else 0) := by
  unfold leapCount isLeap
  have h4 := Nat.succ_div a 4
  have h100 := Nat.succ_div a 100
  have h400 := Nat.succ_div a 400
  have d4 : (4 ∣ a + 1) ↔ (a + 1) % 4 = 0 := Nat.dvd_iff_mod_eq_zero
  have d100 : (100 ∣ a + 1) ↔ (a + 1) % 100 = 0 := Nat.dvd_iff_mod_eq_zero
  have d400 : (400 ∣ a + 1) ↔ (a + 1) % 400 = 0 := Nat.dvd_iff_mod_eq_zero
  simp only [d4, d100, d400] at h4 h100 h400
  simp only [Bool.or_eq_true, Bool.and_eq_true, beq_iff_eq, Bool.not_eq_true',
    beq_eq_false_iff_ne, ne_eq]
  split_ifs at h4 h100 h400 ⊢ <;> omega

lemma daysBeforeYear_succ (y : Nat) (hy : 1 ≤ y) :
    daysBeforeYear (y + 1) = daysBeforeYear y + daysInYear y := by
  unfold daysBeforeYear daysInYear
  obtain ⟨a, rfl⟩ : ∃ a, y = a + 1 := ⟨y - 1, by omega⟩
  have := leapCount_succ a
  simp only [Nat.add_sub_cancel]
  split_ifs at this ⊢ <;> omega

lemma daysBeforeYear_le_succ (y : Nat) : daysBeforeYear y ≤ daysBeforeYear (y + 1) := by
  rcases Nat.eq_zero_or_pos y with h | h
  · simp [h, daysBeforeYear]
  · obtain ⟨a, rfl⟩ : ∃ a, y = a + 1 := ⟨y - 1, by omega⟩
    unfold daysBeforeYear
    have := leapCount_succ a
    simp only [Nat.add_sub_cancel]
    split_ifs at this <;> omega

lemma daysBeforeYear_mono {y y' : Nat} (h : y ≤ y') :
    daysBeforeYear y ≤ daysBeforeYear y' := by
  induction y' with
  | zero => simp_all
  | succ n ih =>
    rcases Nat.lt_or_ge y (n + 1) with h' | h'
    · exact le_trans (ih (by omega)) (daysBeforeYear_le_succ n)
    · have : y = n + 1 := by omega
      simp [this]

lemma daysBeforeMonth_step (y m : Nat) (h1 : 1 ≤ m) (h2 : m ≤ 11) :
    daysBeforeMonth y (m + 1) = daysBeforeMonth y m + daysInMonth y m := by
  interval_cases m <;> cases h : isLeap y <;>
    simp [daysBeforeMonth, daysInMonth, h]

lemma daysBeforeMonth_last (y : Nat) :
    daysBeforeMonth y 12 + daysInMonth y 12 = daysInYear y := by
  cases h : isLeap y <;> simp [daysBeforeMonth, daysInMonth, daysInYear, h]

lemma daysInMonth_pos (y m : Nat) : 1 ≤ daysInMonth y m := by
  unfold daysInMonth
  split <;> first | omega | (split <;> omega)

lemma daysBeforeMonth_mono (y : Nat) {m m' : Nat} (h1 : 1 ≤ m) (h : m ≤ m')
    (h2 : m' ≤ 12) : daysBeforeMonth y m ≤ daysBeforeMonth y m' := by
  induction m' with
  | zero => omega
  | succ n ih =>
    rcases Nat.lt_or_ge m (n + 1) with h' | h'
    · have hn : 1 ≤ n := by omega
      have := daysBeforeMonth_step y n hn (by omega)
      have := ih (by omega) (by omega)
      omega
    · have : m = n + 1 := by omega
      simp [this]

lemma daysBeforeMonth_add_le (y m : Nat) (h1 : 1 ≤ m) (h2 : m ≤ 12) :
    daysBeforeMonth y m + daysInMonth y m ≤ daysInYear y := by
  rcases Nat.lt_or_ge m 12 with h | h
  · have := daysBeforeMonth_step y m h1 (by omega)
    have h12 : daysBeforeMonth y (m + 1) ≤ daysBeforeMonth y 12 :=
      daysBeforeMonth_mono y (by omega) (by omega) (by omega)
    have := daysBeforeMonth_last y
    have := daysInMonth_pos y 12
    omega
  · have : m = 12 := by omega
    subst this
    exact le_of_eq (daysBeforeMonth_last y)

lemma dayNumber_mk (y m d : Nat) :
    dayNumber ⟨y, m, d⟩ = daysBeforeYear y + daysBeforeMonth y m + (d - 1) := rfl

lemma daysBeforeMonth_one (y : Nat) : daysBeforeMonth y 1 = 0 := by
  simp [daysBeforeMonth]

lemma Valid_mk {y m d : Nat} :
    (Date.mk y m d).Valid ↔ 1 ≤ y ∧ 1 ≤ m ∧ m ≤ 12 ∧ 1 ≤ d ∧ d ≤ daysInMonth y m :=
  Iff.rfl

lemma dayNumber_succ {dt : Date} (h : dt.Valid) :
    (dateSucc dt).Valid ∧ dayNumber (dateSucc dt) = dayNumber dt + 1 := by
  obtain ⟨hy, hm1, hm2, hd1, hd2⟩ := h
  obtain ⟨y, m, d⟩ := dt
  simp only at hy hm1 hm2 hd1 hd2
  unfold dateSucc
  dsimp only
  split_ifs with hlt hm
  · refine ⟨Valid_mk.mpr ⟨hy, hm1, hm2, by omega, by omega⟩, ?_⟩
    simp only [dayNumber_mk]
    omega
  · have hstep := daysBeforeMonth_step y m hm1 (by omega)
    refine ⟨Valid_mk.mpr ⟨hy, by omega, by omega, le_refl 1, daysInMonth_pos _ _⟩, ?_⟩
    simp only [dayNumber_mk]
    omega
  · have hm12 : m = 12 := by omega
    subst hm12
    have hlast := daysBeforeMonth_last y
    have hyr := daysBeforeYear_succ y hy
    refine ⟨Valid_mk.mpr ⟨by omega, le_refl 1, by omega, le_refl 1, daysInMonth_pos _ _⟩, ?_⟩
    simp only [dayNumber_mk, daysBeforeMonth_one]
    omega

lemma addDays_spec (dt : Date) (h : dt.Valid) (n : Nat) :
    (addDays dt n).Valid ∧ dayNumber (addDays dt n) = dayNumber dt + n := by
  induction n with
  | zero => exact ⟨h, rfl⟩
  | succ k ih =>
    have := dayNumber_succ ih.1
    exact ⟨this.1, by simp [addDays, this.2, ih.2]; omega⟩

/-- The epoch date 0001-01-01 (a Monday in the proleptic Gregorian calendar). -/
def epochDate : Date := ⟨1, 1, 1⟩

lemma epochDate_valid : epochDate.Valid := by decide

lemma dayNumber_epochDate : dayNumber epochDate = 0 := by decide

/-- Modelled from the spec: the bucket system of one granularity of the
Aggregator (the JS source of the engine is not among the provided files).
`idx` assigns each date its bucket number; `start k` is the calendar start
of bucket `k`; buckets are the half-open spans
`[start k, start (k+1))` in day-number order. -/
structure PeriodSystem where
  idx : Date → Nat
  start : Nat → Date
  valid_start : ∀ k, (start k).Valid
  rank_lt : ∀ k, dayNumber (start k) < dayNumber (start (k + 1))
  mem_lower : ∀ dt : Date, dt.Valid → dayNumber (start (idx dt)) ≤ dayNumber dt
  mem_upper : ∀ dt : Date, dt.Valid → dayNumber dt < dayNumber (start (idx dt + 1))

namespace PeriodSystem

variable (P : PeriodSystem)

lemma start_mono {k k' : Nat} (h : k ≤ k') :
    dayNumber (P.start k) ≤ dayNumber (P.start k') := by
  induction k' with
  | zero => simp_all
  | succ n ih =>
    rcases Nat.lt_or_ge k (n + 1) with h' | h'
    · exact le_trans (ih (by omega)) (le_of_lt (P.rank_lt n))
    · have : k = n + 1 := by omega
      simp [this]

lemma start_strictMono {k k' : Nat} (h : k < k') :
    dayNumber (P.start k) < dayNumber (P.start k') :=
  lt_of_lt_of_le (P.rank_lt k) (P.start_mono h)

/-- A date's bucket is the unique bucket whose span contains it. -/
lemma idx_eq_of_mem {dt : Date} (hv : dt.Valid) {k : Nat}
    (h1 : dayNumber (P.start k) ≤ dayNumber dt)
    (h2 : dayNumber dt < dayNumber (P.start (k + 1))) : P.idx dt = k := by
  by_contra hne
  rcases Nat.lt_or_ge (P.idx dt) k with h | h
  · have : P.idx dt + 1 ≤ k := by omega
    have := P.start_mono this
    have := P.mem_upper dt hv
    omega
  · have : k + 1 ≤ P.idx dt := by omega
    have := P.start_mono this
    have := P.mem_lower dt hv
    omega

lemma idx_start (k : Nat) : P.idx (P.start k) = k :=
  P.idx_eq_of_mem (P.valid_start k) (le_refl _) (P.rank_lt k)

lemma idx_mono {a b : Date} (ha : a.Valid) (hb : b.Valid)
    (h : dayNumber a ≤ dayNumber b) : P.idx a ≤ P.idx b := by
  by_contra hlt
  have h1 : P.idx b + 1 ≤ P.idx a := by omega
  have := P.start_mono h1
  have := P.mem_lower a ha
  have := P.mem_upper b hb
  omega

/-- Span membership characterises the bucket index. -/
lemma idx_eq_iff_span {dt : Date} (hv : dt.Valid) {k : Nat} :
    P.idx dt = k ↔
      dayNumber (P.start k) ≤ dayNumber dt ∧ dayNumber dt < dayNumber (P.start (k + 1)) := by
  constructor
  · rintro rfl
    exact ⟨P.mem_lower dt hv, P.mem_upper dt hv⟩
  · rintro ⟨h1, h2⟩
    exact P.idx_eq_of_mem hv h1 h2

end PeriodSystem

lemma daysBeforeMonth_lt (y : Nat) {m m' : Nat} (h1 : 1 ≤ m) (h2 : m < m')
    (h3 : m' ≤ 12) : daysBeforeMonth y m < daysBeforeMonth y m' := by
  have hstep := daysBeforeMonth_step y m h1 (by omega)
  have hmono : daysBeforeMonth y (m + 1) ≤ daysBeforeMonth y m' :=
    daysBeforeMonth_mono y (by omega) (by omega) h3
  have := daysInMonth_pos y m
  omega

lemma daysInYear_ge (y : Nat) : 365 ≤ daysInYear y := by
  unfold daysInYear; split <;> omega

/-- Modelled from the spec: the display granularities of the dashboard. -/
inductive Granularity where
  | day
  | week
  | month
  | quarter
  | year
deriving DecidableEq, Repr

/-- Day buckets: one bucket per calendar day. -/
def daySystem : PeriodSystem where
  idx dt := dayNumber dt
  start k := addDays epochDate k
  valid_start k := (addDays_spec epochDate epochDate_valid k).1
  rank_lt k := by
    dsimp only
    have h1 := (addDays_spec epochDate epochDate_valid k).2
    have h2 := (addDays_spec epochDate epochDate_valid (k + 1)).2
    omega
  mem_lower dt hv := by
    dsimp only
    have h1 := (addDays_spec epochDate epochDate_valid (dayNumber dt)).2
    simp [dayNumber_epochDate] at h1
    omega
  mem_upper dt hv := by
    dsimp only
    have h1 := (addDays_spec epochDate epochDate_valid (dayNumber dt + 1)).2
    simp [dayNumber_epochDate] at h1
    omega

/-- Week buckets: ISO weeks start on Monday; 0001-01-01 is a Monday, so the
Monday-aligned weeks are exactly the day-number blocks `[7k, 7k+7)`. -/
def weekSystem : PeriodSystem where
  idx dt := dayNumber dt / 7
  start k := addDays epochDate (7 * k)
  valid_start k := (addDays_spec epochDate epochDate_valid (7 * k)).1
  rank_lt k := by
    dsimp only
    have h1 := (addDays_spec epochDate epochDate_valid (7 * k)).2
    have h2 := (addDays_spec epochDate epochDate_valid (7 * (k + 1))).2
    omega
  mem_lower dt hv := by
    dsimp only
    have h1 := (addDays_spec epochDate epochDate_valid (7 * (dayNumber dt / 7))).2
    simp [dayNumber_epochDate] at h1
    omega
  mem_upper dt hv := by
    dsimp only
    have h1 := (addDays_spec epochDate epochDate_valid (7 * (dayNumber dt / 7 + 1))).2
    simp [dayNumber_epochDate] at h1
    omega

/-- Month buckets: one bucket per calendar month. -/
def monthSystem : PeriodSystem where
  idx dt := 12 * (dt.y - 1) + (dt.m - 1)
  start k := ⟨k / 12 + 1, k % 12 + 1, 1⟩
  valid_start k :=
    Valid_mk.mpr ⟨by omega, by omega, by omega, le_refl 1, daysInMonth_pos _ _⟩
  rank_lt k := by
    simp only [dayNumber_mk]
    rcases Nat.lt_or_ge (k % 12) 11 with hq | hq
    · have e1 : (k + 1) / 12 = k / 12 := by omega
      have e2 : (k + 1) % 12 = k % 12 + 1 := by omega
      rw [e1, e2]
      have hlt : daysBeforeMonth (k / 12 + 1) (k % 12 + 1) <
          daysBeforeMonth (k / 12 + 1) (k % 12 + 1 + 1) :=
        daysBeforeMonth_lt _ (by omega) (by omega) (by omega)
      omega
    · have e1 : (k + 1) / 12 + 1 = k / 12 + 1 + 1 := by omega
      have e2 : (k + 1) % 12 + 1 = 1 := by omega
      have e3 : k % 12 + 1 = 12 := by omega
      rw [e1, e2, e3]
      have hsucc := daysBeforeYear_succ (k / 12 + 1) (by omega)
      have hlast := daysBeforeMonth_last (k / 12 + 1)
      have := daysInMonth_pos (k / 12 + 1) 12
      have h0 := daysBeforeMonth_one (k / 12 + 1 + 1)
      omega
  mem_lower dt hv := by
    obtain ⟨hy, hm1, hm2, hd1, hd2⟩ := hv
    simp only [dayNumber_mk, dayNumber]
    have e1 : (12 * (dt.y - 1) + (dt.m - 1)) / 12 + 1 = dt.y := by omega
    have e2 : (12 * (dt.y - 1) + (dt.m - 1)) % 12 + 1 = dt.m := by omega
    rw [e1, e2]
    omega
  mem_upper dt hv := by
    obtain ⟨hy, hm1, hm2, hd1, hd2⟩ := hv
    simp only [dayNumber_mk, dayNumber]
    rcases Nat.lt_or_ge dt.m 12 with hm | hm
    · have e1 : (12 * (dt.y - 1) + (dt.m - 1) + 1) / 12 + 1 = dt.y := by omega
      have e2 : (12 * (dt.y - 1) + (dt.m - 1) + 1) % 12 + 1 = dt.m + 1 := by omega
      rw [e1, e2]
      have hstep := daysBeforeMonth_step dt.y dt.m hm1 (by omega)
      omega
    · have hm12 : dt.m = 12 := by omega
      have e1 : (12 * (dt.y - 1) + (dt.m - 1) + 1) / 12 + 1 = dt.y + 1 := by omega
      have e2 : (12 * (dt.y - 1) + (dt.m - 1) + 1) % 12 + 1 = 1 := by omega
      rw [e1, e2]
      have hsucc := daysBeforeYear_succ dt.y hy
      have hadd := daysBeforeMonth_add_le dt.y dt.m hm1 hm2
      have h0 := daysBeforeMonth_one (dt.y + 1)
      omega

/-- Quarter buckets: Jan-Mar, Apr-Jun, Jul-Sep, Oct-Dec. -/
def quarterSystem : PeriodSystem where
  idx dt := 4 * (dt.y - 1) + (dt.m - 1) / 3
  start k := ⟨k / 4 + 1, 3 * (k % 4) + 1, 1⟩
  valid_start k :=
    Valid_mk.mpr ⟨by omega, by omega, by omega, le_refl 1, daysInMonth_pos _ _⟩
  rank_lt k := by
    simp only [dayNumber_mk]
    rcases Nat.lt_or_ge (k % 4) 3 with hq | hq
    · have e1 : (k + 1) / 4 = k / 4 := by omega
      have e2 : (k + 1) % 4 = k % 4 + 1 := by omega
      rw [e1, e2]
      have hlt : daysBeforeMonth (k / 4 + 1) (3 * (k % 4) + 1) <
          daysBeforeMonth (k / 4 + 1) (3 * (k % 4 + 1) + 1) :=
        daysBeforeMonth_lt _ (by omega) (by omega) (by omega)
      omega
    · have e1 : (k + 1) / 4 + 1 = k / 4 + 1 + 1 := by omega
      have e2 : 3 * ((k + 1) % 4) + 1 = 1 := by omega
      have e3 : 3 * (k % 4) + 1 = 10 := by omega
      rw [e1, e2, e3]
      have hsucc := daysBeforeYear_succ (k / 4 + 1) (by omega)
      have hadd := daysBeforeMonth_add_le (k / 4 + 1) 10 (by omega) (by omega)
      have := daysInMonth_pos (k / 4 + 1) 10
      have := daysInYear_ge (k / 4 + 1)
      have h0 := daysBeforeMonth_one (k / 4 + 1 + 1)
      omega
  mem_lower dt hv := by
    obtain ⟨hy, hm1, hm2, hd1, hd2⟩ := hv
    simp only [dayNumber_mk, dayNumber]
    have e1 : (4 * (dt.y - 1) + (dt.m - 1) / 3) / 4 + 1 = dt.y := by omega
    have e2 : (4 * (dt.y - 1) + (dt.m - 1) / 3) % 4 = (dt.m - 1) / 3 := by omega
    rw [e1, e2]
    have hmono : daysBeforeMonth dt.y (3 * ((dt.m - 1) / 3) + 1) ≤ daysBeforeMonth dt.y dt.m :=
      daysBeforeMonth_mono dt.y (by omega) (by omega) hm2
    omega
  mem_upper dt hv := by
    obtain ⟨hy, hm1, hm2, hd1, hd2⟩ := hv
    simp only [dayNumber_mk, dayNumber]
    rcases Nat.lt_or_ge ((dt.m - 1) / 3) 3 with hq | hq
    · have e1 : (4 * (dt.y - 1) + (dt.m - 1) / 3 + 1) / 4 + 1 = dt.y := by omega
      have e2 : (4 * (dt.y - 1) + (dt.m - 1) / 3 + 1) % 4 = (dt.m - 1) / 3 + 1 := by omega
      rw [e1, e2]
      have hstep := daysBeforeMonth_step dt.y dt.m hm1 (by omega)
      have hmono : daysBeforeMonth dt.y (dt.m + 1) ≤
          daysBeforeMonth dt.y (3 * ((dt.m - 1) / 3 + 1) + 1) :=
        daysBeforeMonth_mono dt.y (by omega) (by omega) (by omega)
      omega
    · have e1 : (4 * (dt.y - 1) + (dt.m - 1) / 3 + 1) / 4 + 1 = dt.y + 1 := by omega
      have e2 : (4 * (dt.y - 1) + (dt.m - 1) / 3 + 1) % 4 = 0 := by omega
      rw [e1, e2]
      have hsucc := daysBeforeYear_succ dt.y hy
      have hadd := daysBeforeMonth_add_le dt.y dt.m hm1 hm2
      have h0 := daysBeforeMonth_one (dt.y + 1)
      simp only [show 3 * 0 + 1 = 1 from rfl]
      omega

/-- Year buckets: one bucket per calendar year. -/
def yearSystem : PeriodSystem where
  idx dt := dt.y - 1
  start k := ⟨k + 1, 1, 1⟩
  valid_start k :=
    Valid_mk.mpr ⟨by omega, le_refl 1, by omega, le_refl 1, daysInMonth_pos _ _⟩
  rank_lt k := by
    simp only [dayNumber_mk, daysBeforeMonth_one]
    have hsucc := daysBeforeYear_succ (k + 1) (by omega)
    have := daysInYear_ge (k + 1)
    omega
  mem_lower dt hv := by
    obtain ⟨hy, hm1, hm2, hd1, hd2⟩ := hv
    simp only [dayNumber_mk, dayNumber, daysBeforeMonth_one]
    have e1 : dt.y - 1 + 1 = dt.y := by omega
    rw [e1]
    omega
  mem_upper dt hv := by
    obtain ⟨hy, hm1, hm2, hd1, hd2⟩ := hv
    simp only [dayNumber_mk, dayNumber, daysBeforeMonth_one]
    have e1 : dt.y - 1 + 1 = dt.y := by omega
    rw [e1]
    have hsucc := daysBeforeYear_succ dt.y hy
    have hadd := daysBeforeMonth_add_le dt.y dt.m hm1 hm2
    omega

/-- The bucket system of each granularity. -/
def periodSystem : Granularity → PeriodSystem
  | .day => daySystem
  | .week => weekSystem
  | .month => monthSystem
  | .quarter => quarterSystem
  | .year => yearSystem

/-- Modelled from the spec: a raw sales transaction.  `wellFormed` models
"parseable date and finite amount"; amounts are exact rationals because the
engine performs no rounding until display. -/
structure RawSalesRecord where
  date : Date
  amount : ℚ
  wellFormed : Bool
deriving DecidableEq, Repr

/-- A record is valid when it is well-formed and its date is a real
calendar date; only valid records enter any computation. -/
def validRec (r : RawSalesRecord) : Bool :=
  r.wellFormed && decide r.date.Valid

/-- Modelled from the spec: one aggregated chart point. -/
structure GroupedPoint where
  periodStart : Date
  periodEnd : Date
  label : String
  totalAmount : ℚ
  movingAverage : Option ℚ
  isAnomaly : Bool
  priorYearAmount : Option ℚ
  percentChangeVsPriorYear : Option ℚ
deriving DecidableEq, Repr

/-- Does record `r` belong to bucket `k` of the grouping over
`[s, e]`?  (valid, inside the requested range, and dated in bucket `k`). -/
def countsRecord (s e : Date) (g : Granularity) (k : Nat) (r : RawSalesRecord) : Bool :=
  validRec r && decide (dayNumber s ≤ dayNumber r.date) &&
    decide (dayNumber r.date ≤ dayNumber e) && ((periodSystem g).idx r.date == k)

/-- Total amount of bucket `k`. -/
def bucketTotal (records : List RawSalesRecord) (s e : Date) (g : Granularity)
    (k : Nat) : ℚ :=
  ((records.filter (countsRecord s e g k)).map RawSalesRecord.amount).sum

/-- Simple label for a bucket (format is display-only and not specified). -/
def bucketLabel (g : Granularity) (k : Nat) : String :=
  let b := (periodSystem g).start k
  Nat.repr b.y ++ "-" ++ Nat.repr b.m ++ "-" ++ Nat.repr b.d

/-- The chart point of bucket `k`. -/
def mkPoint (records : List RawSalesRecord) (s e : Date) (g : Granularity)
    (k : Nat) : GroupedPoint where
  periodStart := (periodSystem g).start k
  periodEnd := (periodSystem g).start (k + 1)
  label := bucketLabel g k
  totalAmount := bucketTotal records s e g k
  movingAverage := none
  isAnomaly := false
  priorYearAmount := none
  percentChangeVsPriorYear := none

/-- Modelled from the spec: `Aggregator.group` (the JS source of the engine
is not among the provided files).  Emits one point per bucket whose span
intersects `[s, e]`, in ascending `periodStart` order; an inverted range
yields an empty series. -/
def group (records : List RawSalesRecord) (s e : Date) (g : Granularity) :
    List GroupedPoint :=
  if dayNumber e < dayNumber s then []
  else
    (List.range ((periodSystem g).idx e + 1 - (periodSystem g).idx s)).map
      (fun j => mkPoint records s e g ((periodSystem g).idx s + j))

/-- The range filter: valid records dated within `[s, e]`. -/
def inRangeRec (s e : Date) (r : RawSalesRecord) : Bool :=
  validRec r && decide (dayNumber s ≤ dayNumber r.date) &&
    decide (dayNumber r.date ≤ dayNumber e)

lemma sum_map_range_add (f g : Nat → ℚ) (n : Nat) :
    ((List.range n).map (fun j => f j + g j)).sum =
      ((List.range n).map f).sum + ((List.range n).map g).sum := by
  induction n with
  | zero => simp
  | succ m ih => simp [List.range_succ, ih]; ring

lemma sum_map_range_ite (i0 t : Nat) (a : ℚ) (n : Nat) :
    ((List.range n).map (fun j => if i0 + j = t then a else 0)).sum =
      if i0 ≤ t ∧ t < i0 + n then a else 0 := by
  induction n with
  | zero =>
    have h0 : ¬(i0 ≤ t ∧ t < i0) := by omega
    simp [h0]
  | succ m ih =>
    simp only [List.range_succ, List.map_append, List.sum_append, ih]
    simp only [List.map_cons, List.map_nil, List.sum_cons, List.sum_nil]
    by_cases h1 : i0 ≤ t ∧ t < i0 + m
    · have h2 : i0 + m ≠ t := by omega
      have h3 : i0 ≤ t ∧ t < i0 + (m + 1) := by omega
      simp [h1, h2, h3]
    · by_cases h2 : i0 + m = t
      · have h3 : i0 ≤ t ∧ t < i0 + (m + 1) := by omega
        simp [h1, h2, h3]
      · have h3 : ¬(i0 ≤ t ∧ t < i0 + (m + 1)) := by omega
        simp [h1, h2, h3]

lemma validRec_date_valid {r : RawSalesRecord} (h : validRec r = true) : r.date.Valid := by
  simp [validRec] at h
  exact h.2

lemma countsRecord_eq (s e : Date) (g : Granularity) (k : Nat) (r : RawSalesRecord) :
    countsRecord s e g k r = (inRangeRec s e r && ((periodSystem g).idx r.date == k)) := by
  simp [countsRecord, inRangeRec, Bool.and_assoc]

lemma bucketTotal_nil (s e : Date) (g : Granularity) (k : Nat) :
    bucketTotal [] s e g k = 0 := rfl

lemma bucketTotal_cons (r : RawSalesRecord) (l : List RawSalesRecord) (s e : Date)
    (g : Granularity) (k : Nat) :
    bucketTotal (r :: l) s e g k =
      (if countsRecord s e g k r then r.amount else 0) + bucketTotal l s e g k := by
  simp only [bucketTotal, List.filter_cons]
  split <;> simp

/-- Each valid in-range record contributes its amount to exactly one emitted
bucket; other records contribute nothing. -/
lemma record_bucket_sum (s e : Date) (g : Granularity) (hs : s.Valid) (he : e.Valid)
    (hse : dayNumber s ≤ dayNumber e) (r : RawSalesRecord) :
    ((List.range ((periodSystem g).idx e + 1 - (periodSystem g).idx s)).map
        (fun j => if countsRecord s e g ((periodSystem g).idx s + j) r then r.amount else 0)).sum
      = if inRangeRec s e r then r.amount else 0 := by
  by_cases h : inRangeRec s e r = true
  · have hv : r.date.Valid := by
      simp [inRangeRec] at h
      exact validRec_date_valid h.1.1
    have hr1 : dayNumber s ≤ dayNumber r.date := by
      simp [inRangeRec] at h
      exact h.1.2
    have hr2 : dayNumber r.date ≤ dayNumber e := by
      simp [inRangeRec] at h
      exact h.2
    have hlow := (periodSystem g).idx_mono hs hv hr1
    have hhigh := (periodSystem g).idx_mono hv he hr2
    have hmap : ∀ j ∈ List.range ((periodSystem g).idx e + 1 - (periodSystem g).idx s),
        (if countsRecord s e g ((periodSystem g).idx s + j) r then r.amount else 0) =
          (if (periodSystem g).idx s + j = (periodSystem g).idx r.date then r.amount else 0) := by
      intro j _
      rw [countsRecord_eq, h]
      simp only [Bool.true_and, beq_iff_eq]
      split_ifs with h1 h2 <;> first | rfl | (exfalso; omega)
    rw [List.map_congr_left hmap, sum_map_range_ite, h]
    have hcond : (periodSystem g).idx s ≤ (periodSystem g).idx r.date ∧
        (periodSystem g).idx r.date <
          (periodSystem g).idx s + ((periodSystem g).idx e + 1 - (periodSystem g).idx s) := by
      have := (periodSystem g).idx_mono hs he hse
      omega
    rw [if_pos hcond]
    simp
  · have h0 : inRangeRec s e r = false := by
      simpa using h
    have hmap : ∀ j ∈ List.range ((periodSystem g).idx e + 1 - (periodSystem g).idx s),
        (if countsRecord s e g ((periodSystem g).idx s + j) r then r.amount else 0) = (0 : ℚ) := by
      intro j _
      rw [countsRecord_eq, h0]
      simp
    rw [List.map_congr_left hmap, h0]
    simp [List.sum_eq_zero]

lemma group_sum_aux (s e : Date) (g : Granularity) (hs : s.Valid) (he : e.Valid)
    (hse : dayNumber s ≤ dayNumber e) (records : List RawSalesRecord) :
    ((List.range ((periodSystem g).idx e + 1 - (periodSystem g).idx s)).map
        (fun j => bucketTotal records s e g ((periodSystem g).idx s + j))).sum =
      ((records.filter (inRangeRec s e)).map RawSalesRecord.amount).sum := by
  induction records with
  | nil =>
    simp only [bucketTotal_nil, List.filter_nil, List.map_nil, List.sum_nil]
    refine List.sum_eq_zero ?_
    intro x hx
    simp only [List.mem_map] at hx
    obtain ⟨j, _, hj⟩ := hx
    exact hj.symm
  | cons r l ih =>
    simp only [bucketTotal_cons]
    rw [sum_map_range_add, ih, record_bucket_sum s e g hs he hse r,
      List.filter_cons]
    by_cases h : inRangeRec s e r = true
    · simp [h]
    · have h0 : inRangeRec s e r = false := by simpa using h
      simp [h0]

/-- Claim C1: for every sequence of raw records, date range and granularity,
the sum of `totalAmount` over all points emitted by `Aggregator.group`
equals the sum of `amount` over all valid raw records whose date lies in
the range. -/
theorem aggregator_sum_invariant (records : List RawSalesRecord) (s e : Date)
    (g : Granularity) (hs : s.Valid) (he : e.Valid) :
    ((group records s e g).map GroupedPoint.totalAmount).sum =
      ((records.filter (inRangeRec s e)).map RawSalesRecord.amount).sum := by
  by_cases hse : dayNumber e < dayNumber s
  · have hfil : records.filter (inRangeRec s e) = [] := by
      refine List.filter_eq_nil_iff.mpr ?_
      intro r _ hcon
      simp only [inRangeRec, Bool.and_eq_true, decide_eq_true_eq] at hcon
      obtain ⟨⟨hv, h1⟩, h2⟩ := hcon
      omega
    simp [group, hse, hfil]
  · have hse' : dayNumber s ≤ dayNumber e := by omega
    rw [group, if_neg hse]
    rw [List.map_map]
    exact group_sum_aux s e g hs he hse' records

/-- Witness for C1 at a concrete input: two valid days, week granularity,
three records of which one is out of range and one malformed. -/
theorem aggregator_sum_invariant_witness :
    (Date.mk 1 1 3).Valid ∧ (Date.mk 1 1 17).Valid ∧
      ((group [⟨⟨1, 1, 4⟩, 5, true⟩, ⟨⟨1, 1, 20⟩, 7, true⟩, ⟨⟨1, 1, 10⟩, 11, false⟩]
          ⟨1, 1, 3⟩ ⟨1, 1, 17⟩ Granularity.week).map GroupedPoint.totalAmount).sum =
        (([⟨⟨1, 1, 4⟩, 5, true⟩, ⟨⟨1, 1, 20⟩, 7, true⟩,
            (⟨⟨1, 1, 10⟩, 11, false⟩ : RawSalesRecord)].filter
            (inRangeRec ⟨1, 1, 3⟩ ⟨1, 1, 17⟩)).map RawSalesRecord.amount).sum :=
  ⟨by decide, by decide,
    aggregator_sum_invariant _ ⟨1, 1, 3⟩ ⟨1, 1, 17⟩ Granularity.week (by decide) (by decide)⟩

/-- Record `r` is counted in point `p`: valid, inside the requested range,
and dated inside the point's half-open span `[periodStart, periodEnd)`. -/
def countedIn (s e : Date) (p : GroupedPoint) (r : RawSalesRecord) : Prop :=
  validRec r = true ∧ dayNumber s ≤ dayNumber r.date ∧ dayNumber r.date ≤ dayNumber e ∧
    dayNumber p.periodStart ≤ dayNumber r.date ∧ dayNumber r.date < dayNumber p.periodEnd

instance (s e : Date) (p : GroupedPoint) (r : RawSalesRecord) :
    Decidable (countedIn s e p r) := by
  unfold countedIn; infer_instance

lemma mem_group {recs : List RawSalesRecord} {s e : Date} {g : Granularity}
    {p : GroupedPoint} (h : p ∈ group recs s e g) :
    ∃ j, j < (periodSystem g).idx e + 1 - (periodSystem g).idx s ∧
      p = mkPoint recs s e g ((periodSystem g).idx s + j) := by
  by_cases hse : dayNumber e < dayNumber s
  · simp [group, hse] at h
  · rw [group, if_neg hse] at h
    simp only [List.mem_map, List.mem_range] at h
    obtain ⟨j, hj, hp⟩ := h
    exact ⟨j, hj, hp.symm⟩

/-- Claim C2: every series produced by `Aggregator.group` is sorted
ascending by `periodStart`, each point's `periodEnd` equals the next
point's `periodStart`, and no raw record is counted in two different
points. -/
theorem aggregator_series_invariants (recs : List RawSalesRecord) (s e : Date)
    (g : Granularity) :
    List.Pairwise
        (fun p q : GroupedPoint => dayNumber p.periodStart < dayNumber q.periodStart)
        (group recs s e g) ∧
      (∀ i, i + 1 < (group recs s e g).length →
        ((group recs s e g).map GroupedPoint.periodEnd)[i]? =
          ((group recs s e g).map GroupedPoint.periodStart)[i + 1]?) ∧
      (∀ r p q, p ∈ group recs s e g → q ∈ group recs s e g →
        countedIn s e p r → countedIn s e q r → p = q) := by
  refine ⟨?_, ?_, ?_⟩
  · by_cases hse : dayNumber e < dayNumber s
    · simp [group, hse]
    · rw [group, if_neg hse]
      rw [List.pairwise_map]
      refine List.Pairwise.imp ?_ (List.pairwise_lt_range _)
      intro a b hab
      exact (periodSystem g).start_strictMono (by omega)
  · intro i hi
    by_cases hse : dayNumber e < dayNumber s
    · simp [group, hse] at hi
    · rw [group, if_neg hse] at hi ⊢
      rw [List.length_map, List.length_range] at hi
      simp only [List.getElem?_map, List.getElem?_range (by omega : i <
          (periodSystem g).idx e + 1 - (periodSystem g).idx s),
        List.getElem?_range hi]
      have : (periodSystem g).idx s + i + 1 = (periodSystem g).idx s + (i + 1) := by omega
      simp [mkPoint, this]
  · intro r p q hp hq hcp hcq
    obtain ⟨jp, hjp, rfl⟩ := mem_group hp
    obtain ⟨jq, hjq, rfl⟩ := mem_group hq
    obtain ⟨hvr, _, _, hp1, hp2⟩ := hcp
    obtain ⟨_, _, _, hq1, hq2⟩ := hcq
    have hv : r.date.Valid := validRec_date_valid hvr
    have e1 : (periodSystem g).idx r.date = (periodSystem g).idx s + jp :=
      (periodSystem g).idx_eq_of_mem hv hp1 hp2
    have e2 : (periodSystem g).idx r.date = (periodSystem g).idx s + jq :=
      (periodSystem g).idx_eq_of_mem hv hq1 hq2
    have : jp = jq := by omega
    rw [this]

/-- Witness for C2 at a concrete input: adjacency of the first two weekly
points and uniqueness of the bucket counting a concrete record. -/
theorem aggregator_series_invariants_witness :
    0 + 1 < (group [⟨⟨1, 1, 4⟩, 5, true⟩] ⟨1, 1, 3⟩ ⟨1, 1, 17⟩ Granularity.week).length ∧
      ((group [⟨⟨1, 1, 4⟩, 5, true⟩] ⟨1, 1, 3⟩ ⟨1, 1, 17⟩ Granularity.week).map
          GroupedPoint.periodEnd)[0]? =
        ((group [⟨⟨1, 1, 4⟩, 5, true⟩] ⟨1, 1, 3⟩ ⟨1, 1, 17⟩
            Granularity.week).map GroupedPoint.periodStart)[0 + 1]? :=
  ⟨by decide,
    (aggregator_series_invariants [⟨⟨1, 1, 4⟩, 5, true⟩] ⟨1, 1, 3⟩ ⟨1, 1, 17⟩
        Granularity.week).2.1 0 (by decide)⟩

/-- Claim C6: for a (non-inverted) date range and any granularity, a bucket
is emitted by `Aggregator.group` exactly when its calendar span
`[start k, start (k+1))` intersects `[s, e]` — even a bucket with zero
records, whose point then carries `totalAmount = 0`; buckets fully outside
the range are omitted. -/
theorem aggregator_bucket_coverage (recs : List RawSalesRecord) (s e : Date)
    (g : Granularity) (hs : s.Valid) (he : e.Valid)
    (hse : dayNumber s ≤ dayNumber e) (k : Nat) :
    ((dayNumber ((periodSystem g).start k) ≤ dayNumber e ∧
        dayNumber s < dayNumber ((periodSystem g).start (k + 1))) ↔
      ∃ p ∈ group recs s e g, p.periodStart = (periodSystem g).start k) ∧
    ((∀ r ∈ recs, countsRecord s e g k r = false) →
      ∀ p ∈ group recs s e g, p.periodStart = (periodSystem g).start k →
        p.totalAmount = 0) := by
  have hne : ¬ dayNumber e < dayNumber s := by omega
  have hi0 := (periodSystem g).idx_mono hs he hse
  constructor
  · constructor
    · rintro ⟨h1, h2⟩
      have hk1 : k ≤ (periodSystem g).idx e := by
        by_contra hk
        have : (periodSystem g).idx e + 1 ≤ k := by omega
        have := (periodSystem g).start_mono this
        have := (periodSystem g).mem_upper e he
        omega
      have hk0 : (periodSystem g).idx s ≤ k := by
        by_contra hk
        have : k + 1 ≤ (periodSystem g).idx s := by omega
        have := (periodSystem g).start_mono this
        have := (periodSystem g).mem_lower s hs
        omega
      refine ⟨mkPoint recs s e g ((periodSystem g).idx s + (k - (periodSystem g).idx s)),
        ?_, ?_⟩
      · rw [group, if_neg hne]
        simp only [List.mem_map, List.mem_range]
        exact ⟨k - (periodSystem g).idx s, by omega, rfl⟩
      · show (periodSystem g).start ((periodSystem g).idx s + (k - (periodSystem g).idx s)) =
          (periodSystem g).start k
        congr 1
        omega
    · rintro ⟨p, hp, hstart⟩
      obtain ⟨j, hj, rfl⟩ := mem_group hp
      have hstart' : (periodSystem g).start ((periodSystem g).idx s + j) =
          (periodSystem g).start k := hstart
      have hk : (periodSystem g).idx s + j = k := by
        have h1 := (periodSystem g).idx_start ((periodSystem g).idx s + j)
        have h2 := (periodSystem g).idx_start k
        rw [hstart'] at h1
        omega
      subst hk
      constructor
      · have h1 := (periodSystem g).start_mono
          (show (periodSystem g).idx s + j ≤ (periodSystem g).idx e by omega)
        have := (periodSystem g).mem_lower e he
        omega
      · have h1 := (periodSystem g).start_mono
          (show (periodSystem g).idx s + 1 ≤ (periodSystem g).idx s + j + 1 by omega)
        have := (periodSystem g).mem_upper s hs
        omega
  · intro hall p hp hstart
    obtain ⟨j, hj, rfl⟩ := mem_group hp
    have hk : (periodSystem g).idx s + j = k := by
      have h1 := (periodSystem g).idx_start ((periodSystem g).idx s + j)
      have h2 := (periodSystem g).idx_start k
      have hstart' : (periodSystem g).start ((periodSystem g).idx s + j) =
          (periodSystem g).start k := hstart
      rw [hstart'] at h1
      omega
    show bucketTotal recs s e g ((periodSystem g).idx s + j) = 0
    rw [hk]
    unfold bucketTotal
    rw [List.filter_eq_nil_iff.mpr (by
      intro r hr
      simp [hall r hr])]
    simp

/-- Witness for C6 at a concrete input: the empty second week of the range
is emitted with zero total. -/
theorem aggregator_bucket_coverage_witness :
    (Date.mk 1 1 3).Valid ∧ (Date.mk 1 1 17).Valid ∧
      dayNumber (Date.mk 1 1 3) ≤ dayNumber (Date.mk 1 1 17) ∧
      ((dayNumber ((periodSystem Granularity.week).start 1) ≤ dayNumber (Date.mk 1 1 17) ∧
          dayNumber (Date.mk 1 1 3) < dayNumber ((periodSystem Granularity.week).start 2)) ↔
        ∃ p ∈ group [⟨⟨1, 1, 4⟩, 5, true⟩] ⟨1, 1, 3⟩ ⟨1, 1, 17⟩ Granularity.week,
          p.periodStart = (periodSystem Granularity.week).start 1) :=
  ⟨by decide, by decide, by decide,
    (aggregator_bucket_coverage [⟨⟨1, 1, 4⟩, 5, true⟩] ⟨1, 1, 3⟩ ⟨1, 1, 17⟩
        Granularity.week (by decide) (by decide) (by decide) 1).1⟩

/-- The last `w` elements of a list (all of it when shorter than `w`). -/
def takeLast (w : Nat) (l : List ℚ) : List ℚ := l.drop (l.length - w)

/-- Moving-average value held by a full window; a partial window yields
none. -/
def maOf (w : Nat) (hist : List ℚ) : Option ℚ :=
  if hist.length = w then some (hist.sum / (w : ℚ)) else none

/-- The 20% deviation rule: flagged iff the moving average is defined,
nonzero, and the relative deviation exceeds 0.20. -/
def anomalyFlag (t : ℚ) (ma : Option ℚ) : Bool :=
  match ma with
  | none => false
  | some m => decide (m ≠ 0 ∧ 20 / 100 < |t - m| / m)

/-- One pass over the series carrying the trailing window of totals. -/
def annotateGo (w : Nat) (hist : List ℚ) : List GroupedPoint → List GroupedPoint
  | [] => []
  | p :: rest =>
    let hist2 := takeLast w (hist ++ [p.totalAmount])
    let ma := maOf w hist2
    { p with movingAverage := ma, isAnomaly := anomalyFlag p.totalAmount ma } ::
      annotateGo w hist2 rest

/-- Modelled from the spec: `AnomalyDetector.annotate` (the JS source of the
engine is not among the provided files).  Sets `movingAverage` and
`isAnomaly` over a grouped series using a trailing window of `w` points. -/
def annotate (series : List GroupedPoint) (w : Nat) : List GroupedPoint :=
  annotateGo w [] series

lemma takeLast_all {w : Nat} {l : List ℚ} (h : l.length ≤ w) : takeLast w l = l := by
  unfold takeLast
  have : l.length - w = 0 := by omega
  rw [this, List.drop_zero]

lemma length_takeLast (w : Nat) (l : List ℚ) :
    (takeLast w l).length = l.length - (l.length - w) := by
  unfold takeLast
  rw [List.length_drop]

lemma takeLast_append (w : Nat) (hw : 1 ≤ w) (P : List ℚ) (t : ℚ) :
    takeLast w (takeLast w P ++ [t]) = takeLast w (P ++ [t]) := by
  rcases Nat.lt_or_ge P.length w with h | h
  · rw [takeLast_all (le_of_lt h)]
  · unfold takeLast
    rw [List.length_append, List.length_append, List.length_drop]
    simp only [List.length_cons, List.length_nil]
    have e1 : P.length - (P.length - w) + (0 + 1) - w = 1 := by omega
    have e2 : P.length + (0 + 1) - w = P.length - w + 1 := by omega
    rw [e1, e2]
    rw [List.drop_append_of_le_length (by rw [List.length_drop]; omega),
      List.drop_append_of_le_length (by omega)]
    rw [List.drop_drop]

lemma annotateGo_getElem (w : Nat) (hw : 1 ≤ w) :
    ∀ (s : List GroupedPoint) (P : List ℚ) (j : Nat),
      (annotateGo w (takeLast w P) s)[j]? = (s[j]?).map (fun p =>
        { p with
          movingAverage :=
            maOf w (takeLast w (P ++ (s.take (j + 1)).map GroupedPoint.totalAmount)),
          isAnomaly := anomalyFlag p.totalAmount
            (maOf w (takeLast w (P ++ (s.take (j + 1)).map GroupedPoint.totalAmount))) })
  | [], P, j => by simp [annotateGo]
  | p :: rest, P, j => by
    rw [annotateGo]
    have hh : takeLast w (takeLast w P ++ [p.totalAmount]) =
        takeLast w (P ++ [p.totalAmount]) := takeLast_append w hw P p.totalAmount
    match j with
    | 0 =>
      simp only [List.getElem?_cons_zero, List.take_succ_cons,
        List.take_zero, List.map_cons, List.map_nil]
      rw [hh]
      rfl
    | j + 1 =>
      simp only [List.getElem?_cons_succ, List.take_succ_cons, List.map_cons]
      rw [hh]
      have := annotateGo_getElem w hw rest (P ++ [p.totalAmount]) j
      rw [show P ++ [p.totalAmount] ++ (rest.take (j + 1)).map GroupedPoint.totalAmount =
        P ++ (p.totalAmount :: (rest.take (j + 1)).map GroupedPoint.totalAmount) by
          simp] at this
      exact this

lemma annotate_eq (series : List GroupedPoint) (w : Nat) :
    annotate series w = annotateGo w (takeLast w []) series := by
  unfold annotate
  congr 1
  unfold takeLast
  simp

lemma annotate_getElem (series : List GroupedPoint) (w : Nat) (hw : 1 ≤ w) (i : Nat) :
    (annotate series w)[i]? = (series[i]?).map (fun p =>
      { p with
        movingAverage :=
          maOf w (takeLast w ((series.take (i + 1)).map GroupedPoint.totalAmount)),
        isAnomaly := anomalyFlag p.totalAmount
          (maOf w (takeLast w ((series.take (i + 1)).map GroupedPoint.totalAmount))) }) := by
  rw [annotate_eq]
  have h := annotateGo_getElem w hw series [] i
  rw [List.nil_append] at h
  exact h

/-- Claim C3: `AnomalyDetector.annotate` gives each point with at least
`w - 1` predecessors the mean of the trailing `w` totals ending at it, and
leaves the first `w - 1` points with no moving average and `isAnomaly =
false` — it never averages a partial window. -/
theorem anomaly_moving_average (series : List GroupedPoint) (w : Nat) (hw : 1 ≤ w)
    (i : Nat) (hi : i < series.length) :
    (w ≤ i + 1 →
      ((annotate series w).map GroupedPoint.movingAverage)[i]? =
        some (some
          ((((series.map GroupedPoint.totalAmount).take (i + 1)).drop (i + 1 - w)).sum /
            (w : ℚ)))) ∧
    (i + 1 < w →
      ((annotate series w).map GroupedPoint.movingAverage)[i]? = some none ∧
        ((annotate series w).map GroupedPoint.isAnomaly)[i]? = some false) := by
  obtain ⟨p, hp⟩ : ∃ p, series[i]? = some p := by
    rw [List.getElem?_eq_getElem hi]
    exact ⟨_, rfl⟩
  have hmain := annotate_getElem series w hw i
  rw [hp] at hmain
  have hlen : ((series.take (i + 1)).map GroupedPoint.totalAmount).length = i + 1 := by
    rw [List.length_map, List.length_take]
    omega
  have hwin : takeLast w ((series.take (i + 1)).map GroupedPoint.totalAmount) =
      ((series.map GroupedPoint.totalAmount).take (i + 1)).drop (i + 1 - w) := by
    unfold takeLast
    rw [hlen, List.map_take]
  have hwinlen : (((series.map GroupedPoint.totalAmount).take (i + 1)).drop
      (i + 1 - w)).length = (i + 1) - (i + 1 - w) := by
    rw [List.length_drop, List.length_take, List.length_map]
    omega
  constructor
  · intro hwi
    rw [List.getElem?_map, hmain]
    have hma : maOf w (takeLast w ((series.take (i + 1)).map GroupedPoint.totalAmount)) =
        some ((((series.map GroupedPoint.totalAmount).take (i + 1)).drop
          (i + 1 - w)).sum / (w : ℚ)) := by
      rw [hwin]
      unfold maOf
      rw [if_pos (by omega : (((series.map GroupedPoint.totalAmount).take (i + 1)).drop
        (i + 1 - w)).length = w)]
    rw [hma]
    rfl
  · intro hwi
    have hma : maOf w (takeLast w ((series.take (i + 1)).map GroupedPoint.totalAmount)) =
        none := by
      rw [hwin]
      unfold maOf
      rw [if_neg (by omega)]
    constructor
    · rw [List.getElem?_map, hmain, hma]
      rfl
    · rw [List.getElem?_map, hmain, hma]
      rfl

/-- A small synthetic daily series used by witnesses: constant 100 with a
spike of 200 at the last point. -/
def demoPoint (a b : Nat) (t : ℚ) : GroupedPoint :=
  ⟨⟨1, 1, a⟩, ⟨1, 1, b⟩, "", t, none, false, none, none⟩

def demoSeries : List GroupedPoint :=
  [demoPoint 1 2 100, demoPoint 2 3 100, demoPoint 3 4 200]

/-- Witness for C3: a daily spike series `[100, 100, 200]` with window 3:
the third point carries the trailing mean of all three totals. -/
theorem anomaly_moving_average_witness :
    1 ≤ 3 ∧ (2 : Nat) < demoSeries.length ∧
      (3 ≤ 2 + 1 →
        ((annotate demoSeries 3).map GroupedPoint.movingAverage)[2]? =
          some (some
            ((((demoSeries.map GroupedPoint.totalAmount).take (2 + 1)).drop
              (2 + 1 - 3)).sum / (3 : ℚ)))) :=
  ⟨by omega, by decide,
    (anomaly_moving_average demoSeries 3 (by omega) 2 (by decide)).1⟩

/-- Claim C4: in an annotated series, a point is flagged anomalous exactly
when its moving average is defined, nonzero, and the relative deviation of
its total from the moving average exceeds 0.20. -/
theorem anomaly_flag_rule (series : List GroupedPoint) (w : Nat) (hw : 1 ≤ w)
    (i : Nat) (p : GroupedPoint) (hp : (annotate series w)[i]? = some p) :
    p.isAnomaly = true ↔
      ∃ m : ℚ, p.movingAverage = some m ∧ m ≠ 0 ∧
        20 / 100 < |p.totalAmount - m| / m := by
  rw [annotate_getElem series w hw i] at hp
  rcases hq : series[i]? with _ | q
  · rw [hq] at hp
    simp at hp
  · rw [hq] at hp
    simp only [Option.map] at hp
    have hp' := Option.some.inj hp
    subst hp'
    simp only
    cases hM : maOf w (takeLast w ((series.take (i + 1)).map GroupedPoint.totalAmount)) with
    | none =>
      simp [anomalyFlag, hM]
    | some m =>
      simp only [anomalyFlag, hM, decide_eq_true_iff]
      constructor
      · rintro ⟨h1, h2⟩
        exact ⟨m, rfl, h1, h2⟩
      · rintro ⟨m', hm', h1, h2⟩
        obtain rfl : m = m' := Option.some.inj hm'
        exact ⟨h1, h2⟩

/-- Witness for C4: the deviation rule as read off the spike point of the
demo series with window 3. -/
theorem anomaly_flag_rule_witness :
    1 ≤ 3 ∧
      (((annotate demoSeries 3).get ⟨2, by decide⟩).isAnomaly = true ↔
        ∃ m : ℚ, ((annotate demoSeries 3).get ⟨2, by decide⟩).movingAverage = some m ∧
          m ≠ 0 ∧
          20 / 100 <
            |((annotate demoSeries 3).get ⟨2, by decide⟩).totalAmount - m| / m) :=
  ⟨by omega,
    anomaly_flag_rule demoSeries 3 (by omega) 2 _ (List.getElem?_eq_getElem (by decide))⟩

/-- Modelled from the spec: direction of a summary metric; `none` renders
as "N/A". -/
inductive Direction where
  | up
  | down
  | flat
deriving DecidableEq, Repr

/-- Modelled from the spec: the percent-change computation shared by
`SummaryMetric` and `percentChangeVsPriorYear`.  A zero prior yields
`none` (undefined), never an infinity and never 0. -/
def percentChange (current prior : ℚ) : Option ℚ :=
  if prior = 0 then none else some ((current - prior) / prior * 100)

/-- Modelled from the spec: metric direction; with a zero prior it is
`flat` only when the current value is also 0, otherwise undefined. -/
def direction (current prior : ℚ) : Option Direction :=
  if prior = 0 then (if current = 0 then some Direction.flat else none)
  else if prior < current then some Direction.up
  else if current < prior then some Direction.down
  else some Direction.flat

/-- Modelled from the spec: the prior-year anchor of a date — same
month/day one year back, with a Feb 29 anchor clamping to Feb 28 in a
non-leap target year.  Used by both `ComparisonEngine.pairWithPriorYear`
and `MetricsSummarizer`'s prior window. -/
def priorYearDate (dt : Date) : Date :=
  ⟨dt.y - 1, dt.m, min dt.d (daysInMonth (dt.y - 1) dt.m)⟩

/-- Total of the bucket (same granularity) containing the prior-year
anchor, recomputed from the raw store on demand. -/
def priorBucketAmount (records : List RawSalesRecord) (g : Granularity)
    (dt : Date) : ℚ :=
  ((records.filter (fun r => validRec r &&
      ((periodSystem g).idx r.date == (periodSystem g).idx (priorYearDate dt)))).map
    RawSalesRecord.amount).sum

/-- Modelled from the spec: `ComparisonEngine.pairWithPriorYear` (the JS
source of the engine is not among the provided files). -/
def pairWithPriorYear (records : List RawSalesRecord) (g : Granularity)
    (series : List GroupedPoint) : List GroupedPoint :=
  series.map (fun p =>
    { p with
      priorYearAmount := some (priorBucketAmount records g p.periodStart),
      percentChangeVsPriorYear :=
        percentChange p.totalAmount (priorBucketAmount records g p.periodStart) })

/-- Modelled from the spec: the fixed summary windows. -/
inductive MetricWindow where
  | YTD
  | MTD
  | WTD
  | L3M
  | L6M
  | L12M
deriving DecidableEq, Repr

/-- Monday of the ISO week containing `dt`. -/
def startOfISOWeek (dt : Date) : Date :=
  (periodSystem Granularity.week).start ((periodSystem Granularity.week).idx dt)

/-- Calendar-month subtraction with day-of-month clamped to the shorter
target month. -/
def subMonths (dt : Date) (n : Nat) : Date :=
  let t := 12 * (dt.y - 1) + (dt.m - 1) - n
  ⟨t / 12 + 1, t % 12 + 1, min dt.d (daysInMonth (t / 12 + 1) (t % 12 + 1))⟩

/-- Window start relative to the reference date. -/
def windowStart (w : MetricWindow) (ref : Date) : Date :=
  match w with
  | .YTD => ⟨ref.y, 1, 1⟩
  | .MTD => ⟨ref.y, ref.m, 1⟩
  | .WTD => startOfISOWeek ref
  | .L3M => subMonths ref 3
  | .L6M => subMonths ref 6
  | .L12M => subMonths ref 12

/-- Sum of amounts of valid records dated in `[a, b]`. -/
def rangeTotal (records : List RawSalesRecord) (a b : Date) : ℚ :=
  ((records.filter (inRangeRec a b)).map RawSalesRecord.amount).sum

/-- Modelled from the spec: one summary card. -/
structure SummaryMetric where
  window : MetricWindow
  currentValue : ℚ
  priorValue : ℚ
  percentChange : Option ℚ
  direction : Option Direction
deriving DecidableEq, Repr

/-- The summary card of one window: current window total, the identical
window shifted back exactly one year (via `priorYearDate`), and the shared
percent-change/direction rules. -/
def summaryMetricOf (records : List RawSalesRecord) (ref : Date)
    (w : MetricWindow) : SummaryMetric :=
  { window := w
    currentValue := rangeTotal records (windowStart w ref) ref
    priorValue :=
      rangeTotal records (priorYearDate (windowStart w ref)) (priorYearDate ref)
    percentChange := percentChange (rangeTotal records (windowStart w ref) ref)
      (rangeTotal records (priorYearDate (windowStart w ref)) (priorYearDate ref))
    direction := direction (rangeTotal records (windowStart w ref) ref)
      (rangeTotal records (priorYearDate (windowStart w ref)) (priorYearDate ref)) }

/-- Modelled from the spec: `MetricsSummarizer.summarize` over the six
fixed windows, reading directly from the raw store. -/
def summarize (records : List RawSalesRecord) (ref : Date) : List SummaryMetric :=
  [MetricWindow.YTD, MetricWindow.MTD, MetricWindow.WTD,
    MetricWindow.L3M, MetricWindow.L6M, MetricWindow.L12M].map
    (summaryMetricOf records ref)

/-- Modelled from the spec: the filter state owned by the UI layer. -/
structure FilterState where
  startDate : Date
  endDate : Date
  granularity : Granularity
  showAnomalies : Bool
  showMovingAverage : Bool
  showPastPeriod : Bool
deriving DecidableEq, Repr

/-- Modelled from the spec: the packaged result of one recompute pass,
with the diagnostic count of excluded records. -/
structure RecomputeResult where
  series : List GroupedPoint
  summary : List SummaryMetric
  excludedCount : Nat
deriving DecidableEq, Repr

/-- Modelled from the spec: `FilterController.recompute`, the single
orchestration pass: group, then annotate (only when anomalies or the
moving average are requested, with the default window of 3), then
prior-year pairing (only when requested), then the unconditional summary
cards, evaluated at the range end as the reference date. -/
def recompute (allRecords : List RawSalesRecord) (fs : FilterState) :
    RecomputeResult :=
  let base := group allRecords fs.startDate fs.endDate fs.granularity
  let withMa := if fs.showAnomalies || fs.showMovingAverage then annotate base 3 else base
  let withPrior :=
    if fs.showPastPeriod then pairWithPriorYear allRecords fs.granularity withMa
    else withMa
  { series := withPrior
    summary := summarize allRecords fs.endDate
    excludedCount := (allRecords.filter (fun r => !validRec r)).length }

/-- Claim C5: every percent-change computation is zero-prior safe: a zero
prior makes `percentChange` undefined (never a number), `direction` is
`flat` exactly when current and prior are both zero, and a nonzero prior
gives `(current - prior) / prior * 100`.  Both `SummaryMetric` and
`percentChangeVsPriorYear` are built from these two functions. -/
theorem percent_change_zero_prior_safe (current prior : ℚ) :
    (prior = 0 → percentChange current prior = none) ∧
    (prior = 0 →
      (direction current prior = some Direction.flat ↔ current = 0 ∧ prior = 0)) ∧
    (prior ≠ 0 →
      percentChange current prior = some ((current - prior) / prior * 100)) := by
  refine ⟨?_, ?_, ?_⟩
  · intro h
    simp [percentChange, h]
  · intro h
    subst h
    by_cases hc : current = 0
    · simp [direction, hc]
    · simp [direction, hc]
  · intro h
    simp [percentChange, h]

/-- Witness for C5 at concrete values: prior 0 with current 5, and the
nonzero-prior formula at (150, 100). -/
theorem percent_change_zero_prior_safe_witness :
    percentChange 5 0 = none ∧
      (direction 5 0 = some Direction.flat ↔ (5 : ℚ) = 0 ∧ (0 : ℚ) = 0) ∧
      percentChange 150 100 = some ((150 - 100) / 100 * 100) :=
  ⟨(percent_change_zero_prior_safe 5 0).1 rfl,
    (percent_change_zero_prior_safe 5 0).2.1 rfl,
    (percent_change_zero_prior_safe 150 100).2.2 (by norm_num)⟩

/-- Claim C7: `FilterController.recompute` is a deterministic pure
function of its two inputs: identical records and filter state give a
structurally identical result. -/
theorem recompute_deterministic (r1 r2 : List RawSalesRecord)
    (f1 f2 : FilterState) (hr : r1 = r2) (hf : f1 = f2) :
    recompute r1 f1 = recompute r2 f2 := by
  subst hr
  subst hf
  rfl

/-- Witness for C7: two identical calls at a concrete input. -/
theorem recompute_deterministic_witness :
    recompute [⟨⟨1, 1, 4⟩, 5, true⟩]
        ⟨⟨1, 1, 3⟩, ⟨1, 1, 17⟩, Granularity.week, true, false, true⟩ =
      recompute [⟨⟨1, 1, 4⟩, 5, true⟩]
        ⟨⟨1, 1, 3⟩, ⟨1, 1, 17⟩, Granularity.week, true, false, true⟩ :=
  recompute_deterministic _ _ _ _ rfl rfl

/-- Claim C8: a Feb 29 anchor of a leap year maps, one year back, to
Feb 28 of the (necessarily non-leap) prior year, and the result is a
defined valid date — the pairing is never skipped.  `priorYearDate` is
the anchor used both by `pairWithPriorYear` and by `summaryMetricOf`'s
prior window. -/
theorem leap_year_prior_alignment (y : Nat) (h : (Date.mk y 2 29).Valid) :
    isLeap (y - 1) = false ∧
      priorYearDate ⟨y, 2, 29⟩ = ⟨y - 1, 2, 28⟩ ∧
      (priorYearDate ⟨y, 2, 29⟩).Valid := by
  obtain ⟨hy, hm1, hm2, hd1, hd2⟩ := h
  simp only at hy hd2
  have hleap : isLeap y = true := by
    by_contra hne
    have hf : isLeap y = false := by simpa using hne
    have h28 : daysInMonth y 2 = 28 := by simp [daysInMonth, hf]
    omega
  have h4 : y % 4 = 0 := by
    simp only [isLeap, Bool.or_eq_true, Bool.and_eq_true, beq_iff_eq,
      Bool.not_eq_true', beq_eq_false_iff_ne, ne_eq] at hleap
    omega
  have hy4 : 4 ≤ y := by omega
  have e1 : (y - 1) % 4 = 3 := by omega
  have e2 : (y - 1) % 400 ≠ 0 := by omega
  have hprev : isLeap (y - 1) = false := by
    simp only [isLeap, Bool.or_eq_false_iff, Bool.and_eq_false_iff,
      beq_eq_false_iff_ne, ne_eq]
    constructor
    · left
      omega
    · omega
  have hdim : daysInMonth (y - 1) 2 = 28 := by
    simp [daysInMonth, hprev]
  have hmin : min 29 (daysInMonth (y - 1) 2) = 28 := by omega
  refine ⟨hprev, ?_, ?_⟩
  · unfold priorYearDate
    dsimp only
    rw [hmin]
  · unfold priorYearDate
    dsimp only
    rw [hmin]
    exact Valid_mk.mpr ⟨by omega, by omega, by omega, by omega, by omega⟩

/-- Witness for C8: Feb 29, 2024 resolves to Feb 28, 2023. -/
theorem leap_year_prior_alignment_witness :
    (Date.mk 2024 2 29).Valid ∧
      (isLeap (2024 - 1) = false ∧
        priorYearDate ⟨2024, 2, 29⟩ = ⟨2024 - 1, 2, 28⟩ ∧
        (priorYearDate ⟨2024, 2, 29⟩).Valid) :=
  ⟨by decide, leap_year_prior_alignment 2024 (by decide)⟩

/-- A stored comment document, as inserted by the POST branch of
`api/comments.js` (timestamps are compared numerically). -/
structure StoredComment where
  portfolioItemId : String
  author : String
  commentText : String
  timestamp : Nat
deriving DecidableEq, Repr

/-- The parsed body of a POST request; absent fields are `none`. -/
structure CommentBody where
  portfolioItemId : Option String
  author : Option String
  commentText : Option String
deriving DecidableEq, Repr

/-- JavaScript truthiness of an optional string field: absent and empty
strings are falsy. -/
def truthy : Option String → Bool
  | none => false
  | some s => s != ""

/-- Result of one handler invocation: HTTP status, the comments collection
afterwards, and the JSON payload of a successful GET. -/
structure HandlerResult where
  status : Nat
  store : List StoredComment
  payload : Option (List StoredComment)
deriving DecidableEq, Repr

/-- Newest-first comparison used by the GET branch
(`.sort({ timestamp: -1 })`). -/
def newerFirst (a b : StoredComment) : Prop := b.timestamp ≤ a.timestamp

instance : DecidableRel newerFirst := fun a b => Nat.decLe b.timestamp a.timestamp

instance : IsTotal StoredComment newerFirst :=
  ⟨fun a b => Nat.le_total b.timestamp a.timestamp⟩

instance : IsTrans StoredComment newerFirst :=
  ⟨fun _ _ _ hab hbc => Nat.le_trans hbc hab⟩

/-- The comments API handler of `api/comments.js` (file `api/reactions.js`),
translated branch by branch: CORS preflight, database connection failure,
POST validation and insert, GET filtered newest-first query, 405 otherwise.
`dbOk` models whether `connectToDatabase` succeeds; `now` models
`new Date()` at insert time. -/
def handler (method : String) (body : Option CommentBody)
    (queryPid : Option String) (now : Nat) (dbOk : Bool)
    (store : List StoredComment) : HandlerResult :=
  if method == "OPTIONS" then ⟨200, store, none⟩
  else if !dbOk then ⟨500, store, none⟩
  else if method == "POST" then
    match body with
    | none => ⟨500, store, none⟩
    | some b =>
      if !(truthy b.portfolioItemId) || !(truthy b.author) || !(truthy b.commentText) then
        ⟨400, store, none⟩
      else
        ⟨201, store ++ [⟨b.portfolioItemId.getD "", b.author.getD "",
          b.commentText.getD "", now⟩], none⟩
  else if method == "GET" then
    if !(truthy queryPid) then ⟨400, store, none⟩
    else
      ⟨200, store, some (List.insertionSort newerFirst
        (store.filter (fun c => c.portfolioItemId == queryPid.getD "")))⟩
  else ⟨405, store, none⟩

/-- Claim C9: a POST whose body is missing (or empty in) any of
`portfolioItemId`, `author` or `commentText` is answered with status 400
and inserts nothing: the comments collection is unchanged. -/
theorem post_missing_field_rejected (b : CommentBody) (queryPid : Option String)
    (now : Nat) (store : List StoredComment)
    (hmiss : truthy b.portfolioItemId = false ∨ truthy b.author = false ∨
      truthy b.commentText = false) :
    (handler "POST" (some b) queryPid now true store).status = 400 ∧
      (handler "POST" (some b) queryPid now true store).store = store ∧
      (handler "POST" (some b) queryPid now true store).payload = none := by
  have hcond : (!(truthy b.portfolioItemId) || !(truthy b.author) ||
      !(truthy b.commentText)) = true := by
    rcases hmiss with h | h | h <;> simp [h]
  simp [handler, hcond]

/-- Witness for C9: a body with an empty author is rejected and the store
is untouched. -/
theorem post_missing_field_rejected_witness :
    (truthy (some "") = false ∨
        truthy (CommentBody.mk (some "item1") (some "") (some "hi")).author = false ∨
        truthy (some "hi") = false) ∧
      (handler "POST" (some ⟨some "item1", some "", some "hi"⟩) none 7 true
          [⟨"item1", "al", "x", 3⟩]).status = 400 ∧
      (handler "POST" (some ⟨some "item1", some "", some "hi"⟩) none 7 true
          [⟨"item1", "al", "x", 3⟩]).store = [⟨"item1", "al", "x", 3⟩] ∧
      (handler "POST" (some ⟨some "item1", some "", some "hi"⟩) none 7 true
          [⟨"item1", "al", "x", 3⟩]).payload = none :=
  ⟨Or.inr (Or.inl (by decide)),
    post_missing_field_rejected ⟨some "item1", some "", some "hi"⟩ none 7
      [⟨"item1", "al", "x", 3⟩] (Or.inr (Or.inl (by decide)))⟩

/-- Claim C10: a GET with a (nonempty) `portfolioItemId` query parameter
answers 200 with exactly the stored comments of that item, ordered by
timestamp descending, and leaves the store unchanged. -/
theorem get_returns_matching_sorted (pid : String) (body : Option CommentBody)
    (now : Nat) (store : List StoredComment) (hp : pid ≠ "") :
    (handler "GET" body (some pid) now true store).status = 200 ∧
      (handler "GET" body (some pid) now true store).store = store ∧
      ∃ cs, (handler "GET" body (some pid) now true store).payload = some cs ∧
        cs.Perm (store.filter (fun c => c.portfolioItemId == pid)) ∧
        cs.Sorted newerFirst := by
  have htr : truthy (some pid) = true := by
    simp [truthy]
    exact hp
  refine ⟨by simp [handler, htr], by simp [handler, htr], ?_⟩
  refine ⟨List.insertionSort newerFirst
    (store.filter (fun c => c.portfolioItemId == pid)), ?_, ?_, ?_⟩
  · simp [handler, htr]
  · exact List.perm_insertionSort newerFirst _
  · exact List.sorted_insertionSort newerFirst _

/-- Witness for C10: a two-item store queried for "item1" returns its two
comments newest first. -/
theorem get_returns_matching_sorted_witness :
    "item1" ≠ "" ∧
      ((handler "GET" none (some "item1") 9 true
          [⟨"item1", "al", "x", 3⟩, ⟨"item2", "bo", "y", 5⟩,
            ⟨"item1", "cy", "z", 8⟩]).status = 200 ∧
        (handler "GET" none (some "item1") 9 true
            [⟨"item1", "al", "x", 3⟩, ⟨"item2", "bo", "y", 5⟩,
              ⟨"item1", "cy", "z", 8⟩]).store =
          [⟨"item1", "al", "x", 3⟩, ⟨"item2", "bo", "y", 5⟩, ⟨"item1", "cy", "z", 8⟩] ∧
        ∃ cs, (handler "GET" none (some "item1") 9 true
            [⟨"item1", "al", "x", 3⟩, ⟨"item2", "bo", "y", 5⟩,
              ⟨"item1", "cy", "z", 8⟩]).payload = some cs ∧
          cs.Perm ([⟨"item1", "al", "x", 3⟩, ⟨"item2", "bo", "y", 5⟩,
            (⟨"item1", "cy", "z", 8⟩ : StoredComment)].filter
            (fun c => c.portfolioItemId == "item1")) ∧
          cs.Sorted newerFirst) :=
  ⟨by decide,
    get_returns_matching_sorted "item1" none 9
      [⟨"item1", "al", "x", 3⟩, ⟨"item2", "bo", "y", 5⟩, ⟨"item1", "cy", "z", 8⟩]
      (by decide)⟩
